import Mathlib

/-!
Shallow embedding of `src/powerpoint_auto_generator.py` (MUH repository).

The Python program builds a slide document from a list of image paths:
it extracts a subject identifier from each filename with a regular
expression, loads a subject-id → age mapping from a metadata CSV,
resolves Windows-style paths on non-Windows platforms through a fixed
candidate-directory search, partitions records into present / missing,
sorts the present records by `(age is None, age or 999, subject_id)`,
and emits one slide per present record with a height-locked picture
placement.

Modelling conventions:
* Python floats carrying ages and inch lengths are modelled as `ℚ`
  (every constant in the source is an exact decimal; ordering and the
  arithmetic used — division by 12, subtraction, halving — agree with
  the rational semantics).  pptx EMU quantisation (lengths are stored
  as integer 1/914400ths of an inch) is abstracted away.
* `pandas` cells that may be NaN are modelled as `Option ℚ`
  (`none` = NaN / missing); `pd.notna` is `Option.isSome`.
* The filesystem, platform name and separator are a record `Env` of
  pure functions (`os.path.exists` is `Env.fsExists`).
* `re.search` with the fixed pattern
  `stride_change_([A-Z]+\d+)_fixed_grid\.png` is implemented directly
  as a leftmost-match scanner (`searchFirst`): the pattern is
  backtracking-free because the letter run is followed by a digit and
  the digit run by `_`.  Python's `\d` also matches non-ASCII decimal
  digits; the model restricts to `0`-`9`, as do the filenames the
  convention describes.
* `list.sort(key=...)` (a stable sort by a total preorder on keys) is
  modelled by `List.insertionSort` on the same keys, which is likewise
  stable; every property proved here (sortedness, idempotence,
  multiset-equality) is invariant across stable sorts.
-/

namespace MUH

/-! ### Identifier Extractor (`extract_subject_id_from_filename`) -/

/-- Character class `[A-Z]` of the pattern. -/
def isUpperAZ (c : Char) : Bool := 'A' ≤ c && c ≤ 'Z'

/-- Character class `\d` of the pattern (ASCII decimal digits). -/
def isDigit09 (c : Char) : Bool := '0' ≤ c && c ≤ '9'

/-- The literal prefix of the regular expression. -/
def preTok : List Char := "stride_change_".toList

/-- The literal suffix of the regular expression. -/
def sufTok : List Char := "_fixed_grid.png".toList

/-- Attempt to match the pattern at the start of `cs`; on success return
the capture group (letters ++ digits). -/
def tryMatchAt (cs : List Char) : Option (List Char) :=
  if preTok.isPrefixOf cs then
    let r1 := cs.drop preTok.length
    let L := r1.takeWhile isUpperAZ
    let r2 := r1.dropWhile isUpperAZ
    if L = [] then none
    else
      let D := r2.takeWhile isDigit09
      let r3 := r2.dropWhile isDigit09
      if D = [] then none
      else if sufTok.isPrefixOf r3 then some (L ++ D) else none
  else none

/-- Model of `re.search`: scan positions left to right, first match wins. -/
def searchFirst : List Char → Option (List Char)
  | [] => none
  | c :: cs =>
    match tryMatchAt (c :: cs) with
    | some t => some t
    | none => searchFirst cs

/-- Function `extract_subject_id_from_filename`: the capture group of the first
match of `stride_change_([A-Z]+\d+)_fixed_grid\.png`, else `None`. -/
def extract_subject_id_from_filename (s : String) : Option String :=
  (searchFirst s.toList).map fun t => String.mk t

/-- Declarative reading of the pattern: `cs` decomposes, after an
arbitrary prefix `a`, into the literal prefix, a nonempty uppercase
run, a nonempty digit run whose concatenation is the token `t`, and
the literal suffix followed by anything. -/
def MatchDecomp (cs t a : List Char) : Prop :=
  ∃ L D b, t = L ++ D ∧ L ≠ [] ∧ D ≠ [] ∧
    (∀ c ∈ L, isUpperAZ c = true) ∧ (∀ c ∈ D, isDigit09 c = true) ∧
    cs = a ++ preTok ++ L ++ D ++ sufTok ++ b

/-! ### Metadata Resolver (`load_subject_metadata`) -/

/-- One row of the metadata CSV as seen by pandas: the stringified `ID`
cell and the two possible age cells (`none` = NaN / column absent for
this row). -/
structure MetaRow where
  id : String
  age_months : Option ℚ
  age : Option ℚ
deriving DecidableEq, Repr

/-- The metadata table: which columns exist, and the rows. -/
structure MetaTable where
  hasAgeMonths : Bool
  hasAge : Bool
  rows : List MetaRow
deriving DecidableEq, Repr

/-- The `for _, row in metadata_df.iterrows()` loop: collect
`(str(row['ID']), age_years)` for every row whose `age_years` cell is
not NaN (`pd.notna`). -/
def buildMapping (getAge : MetaRow → Option ℚ) : List MetaRow → List (String × ℚ)
  | [] => []
  | r :: rs =>
    match getAge r with
    | some a => (r.id, a) :: buildMapping getAge rs
    | none => buildMapping getAge rs

/-- Function `load_subject_metadata`.  Input `none` models a file that cannot be
read (`FileNotFoundError` or any other exception).  The second
component records whether a warning/error diagnostic was printed
instead of a mapping being built. -/
def load_subject_metadata (file : Option MetaTable) : List (String × ℚ) × Bool :=
  match file with
  | none => ([], true)
  | some t =>
    if t.hasAgeMonths then
      (buildMapping (fun r => r.age_months.map (· / 12)) t.rows, false)
    else if t.hasAge then
      (buildMapping (fun r => r.age) t.rows, false)
    else ([], true)

/-! ### `parse_image_paths_from_file` -/

/-- The whitespace set of Python's `str.strip()` (ASCII part). -/
def isPySpace (c : Char) : Bool :=
  c = ' ' || c = '\t' || c = '\n' || c = '\r' || c = '\x0b' || c = '\x0c'

/-- Drop the maximal suffix of characters satisfying `p`. -/
def dropTrailing (p : Char → Bool) (cs : List Char) : List Char :=
  (cs.reverse.dropWhile p).reverse

/-- Python `str.strip()`. -/
def pyStrip (cs : List Char) : List Char :=
  dropTrailing isPySpace (cs.dropWhile isPySpace)

def isQuote (c : Char) : Bool := c = '"'

/-- Python `str.strip('"')`. -/
def stripQuotes (cs : List Char) : List Char :=
  dropTrailing isQuote (cs.dropWhile isQuote)

/-- The per-line body of the loop: `path = line.strip().strip('"')`,
kept when `path and path.endswith('.png')`. -/
def cleanLine (cs : List Char) : Option (List Char) :=
  let p := stripQuotes (pyStrip cs)
  if p ≠ [] ∧ ".png".toList.isSuffixOf p then some p else none

/-- Python `str.split('\n')`. -/
def splitLines : List Char → List (List Char)
  | [] => [[]]
  | c :: rest =>
    if c = '\n' then [] :: splitLines rest
    else
      match splitLines rest with
      | l :: ls => (c :: l) :: ls
      | [] => [[c]]

/-- Function `parse_image_paths_from_file`, where `none` models a missing or
unreadable file (both `except` branches return `[]`). -/
def parse_image_paths_from_file (file : Option String) : List String :=
  match file with
  | none => []
  | some content =>
    ((splitLines (pyStrip content.toList)).filterMap cleanLine).map fun l => String.mk l

/-- The specification's reading: keep exactly the lines of the file
whose cleaned form is nonempty and ends with `.png`, in input order
(no whole-content strip first). -/
def parseLinesSpec (content : String) : List String :=
  ((splitLines content.toList).filterMap cleanLine).map fun l => String.mk l

/-! ### Path Resolver and Image Catalog Builder
(`create_powerpoint_from_images`, lines 159–229) -/

/-- The ambient platform: a pure view of `os.path.exists`, `os.name`,
`os.sep`, and what reading the metadata file yields (`none` = the read
raises). -/
structure Env where
  fsExists : String → Bool
  osName : String
  sep : Char
  metadata : Option MetaTable

/-- Line 165, `img_path.replace('\\', os.sep).replace('/', os.sep)` (for the
one-character separators of both supported platforms the two `replace`
calls equal this character map). -/
def normalizeSeps (sep : Char) (s : String) : String :=
  String.mk (s.toList.map fun c => if c = '\\' ∨ c = '/' then sep else c)

/-- Model of `os.path.basename` after separators were normalised to `sep`:
everything after the last separator. -/
def basename (sep : Char) (s : String) : String :=
  String.mk ((s.toList.reverse.takeWhile fun c => c ≠ sep).reverse)

/-- The `possible_paths` list built from the base filename. -/
def candidatePaths (fn : String) : List String :=
  [fn,
   "figures/individual_plots/stride_change_after_success_vs_failure/" ++ fn,
   "analysis/figures/individual_plots/stride_change_after_success_vs_failure/" ++ fn,
   "motor_learning_output/figures/individual_plots/stride_change_after_success_vs_failure/" ++ fn]

/-- Lines 163–188: normalise separators; for a `C:`-prefixed path on a
non-`nt` platform search the candidate locations for the base
filename, the first existing one winning (`none` = the loop printed
"Could not find image" and `continue`d). -/
def resolvePath (env : Env) (raw : String) : Option String :=
  let p := normalizeSeps env.sep raw
  if "C:".toList.isPrefixOf p.toList ∧ env.osName ≠ "nt" then
    (candidatePaths (basename env.sep p)).find? env.fsExists
  else some p

/-- One entry of `image_data` / `missing_images`. -/
structure SlideRecord where
  path : String
  subject_id : String
  age : Option ℚ
  filename : String
deriving DecidableEq, Repr

/-- Python `dict.get` for a dict built by insertion in list order
(later assignments overwrite earlier ones). -/
def lookupLast (m : List (String × ℚ)) (k : String) : Option ℚ :=
  m.foldl (fun acc p => if p.1 = k then some p.2 else acc) none

/-- The body of the `for img_path in image_paths` loop for one path:
`none` = the iteration `continue`d (unresolved path or no subject id);
otherwise the built record together with `os.path.exists(img_path)`
(which decides `image_data` vs `missing_images`). -/
def processOne (env : Env) (ageMap : List (String × ℚ)) (raw : String) :
    Option (SlideRecord × Bool) :=
  match resolvePath env raw with
  | none => none
  | some p =>
    match extract_subject_id_from_filename (basename env.sep p) with
    | none => none
    | some sid =>
      some ({ path := p, subject_id := sid, age := lookupLast ageMap sid,
              filename := basename env.sep p },
        env.fsExists p)

/-- The whole loop: `(image_data, missing_images)` in input order. -/
def buildLists (env : Env) (ageMap : List (String × ℚ)) :
    List String → List SlideRecord × List SlideRecord
  | [] => ([], [])
  | raw :: rest =>
    let t := buildLists env ageMap rest
    match processOne env ageMap raw with
    | none => t
    | some (r, true) => (r :: t.1, t.2)
    | some (r, false) => (t.1, r :: t.2)

/-! ### The sort (line 229)
`image_data.sort(key=lambda x: (x['age'] is None, x['age'] if x['age']
is not None else 999, x['subject_id']))` -/

/-- Second component of the sort key. -/
def keyAge (r : SlideRecord) : ℚ :=
  match r.age with
  | some a => a
  | none => 999

/-- The key tuple, ordered lexicographically exactly as Python orders
tuples (`False < True` for the first component). -/
def recKey (r : SlideRecord) : Bool ×ₗ (ℚ ×ₗ String) :=
  toLex (r.age.isNone, toLex (keyAge r, r.subject_id))

/-- The total preorder the sort uses. -/
def keyLE (a b : SlideRecord) : Prop := recKey a ≤ recKey b

/-- Python's `<` on strings (code-point lexicographic), as an
executable Boolean on character lists. -/
def strLtb : List Char → List Char → Bool
  | [], [] => false
  | [], _ :: _ => true
  | _ :: _, [] => false
  | a :: l₁, b :: l₂ => if a < b then true else if a = b then strLtb l₁ l₂ else false

theorem strLtb_iff : ∀ l₁ l₂ : List Char, strLtb l₁ l₂ = true ↔ List.Lex (· < ·) l₁ l₂
  | [], [] => by
    simp only [strLtb, Bool.false_eq_true, false_iff]
    intro h; cases h
  | [], _ :: _ => by simp only [strLtb, true_iff]; exact List.Lex.nil
  | _ :: _, [] => by
    simp only [strLtb, Bool.false_eq_true, false_iff]
    intro h; cases h
  | a :: l₁, b :: l₂ => by
    simp only [strLtb]
    by_cases hab : a < b
    · simp only [if_pos hab, true_iff]
      exact List.Lex.rel hab
    · rw [if_neg hab]
      by_cases heq : a = b
      · subst heq
        rw [if_pos rfl, strLtb_iff l₁ l₂]
        constructor
        · exact List.Lex.cons
        · intro h
          cases h with
          | cons h => exact h
          | rel h => exact absurd h hab
      · simp only [if_neg heq, Bool.false_eq_true, false_iff]
        intro h
        cases h with
        | cons _ => exact heq rfl
        | rel h => exact hab h

theorem strLtb_lt_iff (s t : String) : strLtb s.toList t.toList = true ↔ s < t := by
  rw [strLtb_iff, String.lt_iff_toList_lt]
  exact Iff.rfl

/-- Executable form of the key comparison. -/
def keyLEb (a b : SlideRecord) : Bool :=
  if a.age.isNone = b.age.isNone then
    if keyAge a < keyAge b then true
    else if keyAge a = keyAge b then !(strLtb b.subject_id.toList a.subject_id.toList)
    else false
  else !a.age.isNone && b.age.isNone

theorem strLtb_le_iff (s t : String) : (!strLtb t.toList s.toList) = true ↔ s ≤ t := by
  rw [Bool.not_eq_true', ← Bool.not_eq_true, strLtb_lt_iff]
  exact not_lt

theorem keyLE_iff_keyLEb (a b : SlideRecord) : keyLE a b ↔ keyLEb a b = true := by
  have hk : keyLE a b ↔
      (a.age.isNone < b.age.isNone ∨ (a.age.isNone = b.age.isNone ∧
        (keyAge a < keyAge b ∨ (keyAge a = keyAge b ∧ a.subject_id ≤ b.subject_id)))) := by
    unfold keyLE recKey
    rw [Prod.Lex.le_iff]
    constructor
    · rintro (h | ⟨he, h2⟩)
      · exact Or.inl h
      · exact Or.inr ⟨he, (Prod.Lex.le_iff _ _).mp h2⟩
    · rintro (h | ⟨he, h2⟩)
      · exact Or.inl h
      · exact Or.inr ⟨he, (Prod.Lex.le_iff _ _).mpr h2⟩
  rw [hk]
  by_cases h1 : a.age.isNone = b.age.isNone
  · by_cases h2 : keyAge a < keyAge b
    · simp [keyLEb, h1, h2, lt_self_iff_false]
    · by_cases h3 : keyAge a = keyAge b
      · have := strLtb_le_iff a.subject_id b.subject_id
        simp only [keyLEb, if_pos h1, if_neg h2, if_pos h3, this]
        simp [h1, h2, h3, lt_self_iff_false]
      · simp [keyLEb, h1, h2, h3, lt_self_iff_false]
  · unfold keyLEb
    rw [if_neg h1]
    constructor
    · rintro (hlt | ⟨he, _⟩)
      · rw [Bool.lt_iff] at hlt
        rw [hlt.1, hlt.2]
        rfl
      · exact absurd he h1
    · intro h
      rw [Bool.and_eq_true] at h
      rw [Bool.not_eq_true'] at h
      exact Or.inl (Bool.lt_iff.mpr ⟨h.1, h.2⟩)

instance : DecidableRel keyLE :=
  fun a b => decidable_of_iff (keyLEb a b = true) (keyLE_iff_keyLEb a b).symm

instance : IsTotal SlideRecord keyLE := ⟨fun a b => le_total (recKey a) (recKey b)⟩

instance : IsTrans SlideRecord keyLE := ⟨fun _ _ _ h1 h2 => le_trans h1 h2⟩

/-- Line 229, `list.sort(key=...)`: a stable sort by `keyLE` (see header note). -/
def sortRecs (l : List SlideRecord) : List SlideRecord := l.insertionSort keyLE

/-- The order the specification describes: aged records first, the aged
group ascending by age then id, the ageless group by id. -/
def specLE (a b : SlideRecord) : Prop :=
  match a.age, b.age with
  | some x, some y => x < y ∨ (x = y ∧ a.subject_id ≤ b.subject_id)
  | some _, none => True
  | none, some _ => False
  | none, none => a.subject_id ≤ b.subject_id

/-! ### Age mapping wiring (lines 154–157) -/

/-- Lines 154-157: `age_mapping` is empty unless `metadata_path` is given and exists, in
which case `load_subject_metadata` is called. -/
def ageMapOf (env : Env) (mdPath : Option String) : List (String × ℚ) :=
  match mdPath with
  | none => []
  | some mp => if env.fsExists mp then (load_subject_metadata env.metadata).1 else []

theorem ageMapOf_some (env : Env) (mp : String) :
    ageMapOf env (some mp) =
      if env.fsExists mp then (load_subject_metadata env.metadata).1 else [] := rfl

/-- The sorted `present` catalog of a run. -/
def presentOf (env : Env) (mdPath : Option String) (inputs : List String) :
    List SlideRecord :=
  sortRecs (buildLists env (ageMapOf env mdPath) inputs).1

/-- The `missing_images` list of a run. -/
def missingOf (env : Env) (mdPath : Option String) (inputs : List String) :
    List SlideRecord :=
  (buildLists env (ageMapOf env mdPath) inputs).2

/-! ### Layout Engine and Document Assembler (lines 231–323) -/

def slideWidth : ℚ := 13.333
def slideHeight : ℚ := 7.5

/-- Value `slide_height - Inches(1.2) - Inches(0.3)`. -/
def availableHeight : ℚ := slideHeight - 1.2 - 0.3

/-- Value `slide_width - Inches(1.0)`. -/
def availableWidth : ℚ := slideWidth - 1.0

/-- Width reported by `add_picture(..., height=h)`: height-locked
scaling, width derived from the natural aspect ratio. -/
def scaledWidth (aspect availH : ℚ) : ℚ := aspect * availH

/-- Lines 306–311: recentre only when the placed width is narrower
than the available width, else keep the default `Inches(0.5)`. -/
def leftOffset (availW w : ℚ) : ℚ :=
  if w < availW then 0.5 + (availW - w) / 2 else 0.5

/-- What ends up on a slide body: a placed picture or the error
text box substituted in the `except` branch. -/
inductive SlideContent where
  | pic (left top width height : ℚ)
  | errorText (text : String)
deriving DecidableEq, Repr

/-- Lines 283–323: try to place the image (the collaborator returns
the natural aspect ratio, `none` modelling a raised exception), else
substitute the placeholder text box. -/
def placeImage (collab : String → Option ℚ) (path filename : String) : SlideContent :=
  match collab path with
  | none => .errorText ("Error loading image:\n" ++ filename)
  | some aspect =>
    let w := scaledWidth aspect availableHeight
    .pic (leftOffset availableWidth w) 1.2 w availableHeight

/-- The optional `" (Age: {age:.1f} years)"` fragment (`fmt` abstracts
Python's `{:.1f}` float formatting, never inspected by the claims). -/
def ageNote (fmt : ℚ → String) (age : Option ℚ) : String :=
  match age with
  | some a => " (Age: " ++ fmt a ++ " years)"
  | none => ""

/-- The per-slide header line (lines 268–271). -/
def mkHeader (fmt : ℚ → String) (r : SlideRecord) (i n : ℕ) : String :=
  "Subject " ++ r.subject_id ++ ageNote fmt r.age ++
    " - Slide " ++ toString i ++ " of " ++ toString n

structure Slide where
  header : String
  content : SlideContent
deriving DecidableEq, Repr

/-- A produced document: the title slide's two texts plus one slide
per sorted present record. -/
structure Document where
  mainTitle : String
  subtitle : String
  imageSlides : List Slide
deriving DecidableEq, Repr

/-- Ages available for the title-slide range (order as in the list). -/
def agesWithData (l : List SlideRecord) : List ℚ := l.filterMap (·.age)

/-- The subtitle of the title slide (lines 239–248). -/
def subtitleOf (fmt : ℚ → String) (ageMap : List (String × ℚ))
    (sorted : List SlideRecord) : String :=
  let base := "Individual Stride Change Distributions\n" ++
    toString sorted.length ++ " participants"
  if ageMap ≠ [] then
    match agesWithData sorted with
    | [] => base
    | a :: rest =>
      base ++ "\nAge range: " ++ fmt (rest.foldl min a) ++ " - " ++
        fmt (rest.foldl max a) ++ " years\nOrdered from youngest to oldest"
  else base

/-- Function `create_powerpoint_from_images`, where `none` models the empty return on
an empty `image_data` (the fatal "No valid images found" branch). -/
def createPresentation (env : Env) (mdPath : Option String) (inputs : List String)
    (collab : String → Option ℚ) (fmt : ℚ → String) (title : String) :
    Option Document :=
  let ageMap := ageMapOf env mdPath
  let lists := buildLists env ageMap inputs
  if lists.1 = [] then none
  else
    let sorted := sortRecs lists.1
    let n := sorted.length
    some
      { mainTitle := title
        subtitle := subtitleOf fmt ageMap sorted
        imageSlides := sorted.enum.map fun p =>
          { header := mkHeader fmt p.2 (p.1 + 1) n
            content := placeImage collab p.2.path p.2.filename } }

/-! ### Lemmas about the Identifier Extractor -/

theorem takeWhile_append_all {p : Char → Bool} :
    ∀ {L rest : List Char}, (∀ c ∈ L, p c = true) →
      (L ++ rest).takeWhile p = L ++ rest.takeWhile p
  | [], _, _ => rfl
  | c :: L, rest, h => by
    rw [List.cons_append, List.takeWhile_cons_of_pos (h c (List.mem_cons_self _ _))]
    rw [takeWhile_append_all fun x hx => h x (List.mem_cons_of_mem _ hx)]
    rfl

theorem dropWhile_append_all {p : Char → Bool} :
    ∀ {L rest : List Char}, (∀ c ∈ L, p c = true) →
      (L ++ rest).dropWhile p = rest.dropWhile p
  | [], _, _ => rfl
  | c :: L, rest, h => by
    rw [List.cons_append, List.dropWhile_cons_of_pos (h c (List.mem_cons_self _ _))]
    exact dropWhile_append_all fun x hx => h x (List.mem_cons_of_mem _ hx)

theorem digit_not_upper {c : Char} (h : isDigit09 c = true) : isUpperAZ c = false := by
  unfold isDigit09 at h
  unfold isUpperAZ
  rw [Bool.and_eq_true] at h
  have h2 : c ≤ '9' := by exact_mod_cast (decide_eq_true_eq).mp h.2
  rw [Bool.and_eq_false_iff]
  left
  rw [decide_eq_false_iff_not]
  intro hA
  have : ('A' : Char) ≤ '9' := le_trans hA h2
  exact absurd this (by decide)

theorem underscore_not_digit : isDigit09 '_' = false := by decide

theorem searchFirst_cons (c : Char) (cs : List Char) :
    searchFirst (c :: cs) =
      match tryMatchAt (c :: cs) with
      | some t => some t
      | none => searchFirst cs := rfl

/-- Characterisation of a match attempt at position 0. -/
theorem tryMatchAt_eq_some_iff {cs t : List Char} :
    tryMatchAt cs = some t ↔ MatchDecomp cs t [] := by
  constructor
  · intro h
    by_cases hpre : preTok.isPrefixOf cs = true
    · rcases List.isPrefixOf_iff_prefix.mp hpre with ⟨rest, hrest⟩
      have hdrop : cs.drop preTok.length = rest := by
        rw [← hrest]; exact List.drop_left _ _
      unfold tryMatchAt at h
      rw [if_pos hpre] at h
      simp only [hdrop] at h
      by_cases hLne : rest.takeWhile isUpperAZ = []
      · rw [if_pos hLne] at h; exact Option.noConfusion h
      · rw [if_neg hLne] at h
        by_cases hDne : (rest.dropWhile isUpperAZ).takeWhile isDigit09 = []
        · rw [if_pos hDne] at h; exact Option.noConfusion h
        · rw [if_neg hDne] at h
          by_cases hsuf :
              sufTok.isPrefixOf ((rest.dropWhile isUpperAZ).dropWhile isDigit09) = true
          · rw [if_pos hsuf, Option.some_inj] at h
            rcases List.isPrefixOf_iff_prefix.mp hsuf with ⟨b, hb⟩
            refine ⟨_, _, b, h.symm, hLne, hDne,
              (fun c hc => List.mem_takeWhile_imp hc),
              (fun c hc => List.mem_takeWhile_imp hc), ?_⟩
            rw [List.nil_append, ← hrest]
            conv_lhs =>
              rw [← List.takeWhile_append_dropWhile isUpperAZ rest]
              rw [← List.takeWhile_append_dropWhile isDigit09
                (rest.dropWhile isUpperAZ)]
              rw [← hb]
            simp [List.append_assoc]
          · rw [if_neg hsuf] at h; exact Option.noConfusion h
    · unfold tryMatchAt at h
      rw [if_neg hpre] at h
      exact Option.noConfusion h
  · rintro ⟨L, D, b, ht, hLne, hDne, hLup, hDdig, hcs⟩
    rw [List.nil_append] at hcs
    have hrest : cs = preTok ++ (L ++ (D ++ (sufTok ++ b))) := by
      rw [hcs]; simp [List.append_assoc]
    have hpre : preTok.isPrefixOf cs = true := by
      rw [List.isPrefixOf_iff_prefix, hrest]; exact ⟨_, rfl⟩
    have hdrop : cs.drop preTok.length = L ++ (D ++ (sufTok ++ b)) := by
      rw [hrest]; exact List.drop_left _ _
    have htake1 : (L ++ (D ++ (sufTok ++ b))).takeWhile isUpperAZ = L := by
      rw [takeWhile_append_all hLup]
      rcases D with _ | ⟨d, D2⟩
      · exact absurd rfl hDne
      · rw [List.cons_append, List.takeWhile_cons_of_neg, List.append_nil]
        rw [digit_not_upper (hDdig d (List.mem_cons_self _ _))]
        exact Bool.false_ne_true
    have hdrop1 : (L ++ (D ++ (sufTok ++ b))).dropWhile isUpperAZ = D ++ (sufTok ++ b) := by
      rw [dropWhile_append_all hLup]
      rcases D with _ | ⟨d, D2⟩
      · exact absurd rfl hDne
      · rw [List.cons_append, List.dropWhile_cons_of_neg, ← List.cons_append]
        rw [digit_not_upper (hDdig d (List.mem_cons_self _ _))]
        exact Bool.false_ne_true
    have htake2 : (D ++ (sufTok ++ b)).takeWhile isDigit09 = D := by
      rw [takeWhile_append_all hDdig]
      rw [show sufTok ++ b = '_' :: ("fixed_grid.png".toList ++ b) from rfl]
      rw [List.takeWhile_cons_of_neg, List.append_nil]
      rw [underscore_not_digit]
      exact Bool.false_ne_true
    have hdrop2 : (D ++ (sufTok ++ b)).dropWhile isDigit09 = sufTok ++ b := by
      rw [dropWhile_append_all hDdig]
      rw [show sufTok ++ b = '_' :: ("fixed_grid.png".toList ++ b) from rfl]
      rw [List.dropWhile_cons_of_neg
        (by rw [underscore_not_digit]; exact Bool.false_ne_true)]
    have hsuf : sufTok.isPrefixOf (sufTok ++ b) = true := by
      rw [List.isPrefixOf_iff_prefix]; exact ⟨_, rfl⟩
    unfold tryMatchAt
    rw [if_pos hpre]
    simp only [hdrop]
    rw [htake1, hdrop1, htake2, hdrop2, if_neg hLne, if_neg hDne, if_pos hsuf, ht]

/-- Soundness plus leftmost-ness of the scan. -/
theorem searchFirst_eq_some {cs t : List Char} (h : searchFirst cs = some t) :
    ∃ a, MatchDecomp cs t a ∧ ∀ a' t', MatchDecomp cs t' a' → a.length ≤ a'.length := by
  induction cs with
  | nil => exact absurd h (by simp [searchFirst])
  | cons c cs ih =>
    rw [searchFirst_cons] at h
    rcases htry : tryMatchAt (c :: cs) with _ | t0
    · rw [htry] at h
      rcases ih h with ⟨a, hd, hmin⟩
      rcases hd with ⟨L, D, b, ht, hLne, hDne, hLup, hDdig, hcs⟩
      refine ⟨c :: a, ⟨L, D, b, ht, hLne, hDne, hLup, hDdig, ?_⟩, ?_⟩
      · simp only [List.cons_append]
        rw [hcs]
      · rintro a' t' hd'
        rcases a' with _ | ⟨c2, a2⟩
        · exact absurd (tryMatchAt_eq_some_iff.mpr hd') (by rw [htry]; simp)
        · rcases hd' with ⟨L2, D2, b2, ht2, hLne2, hDne2, hLup2, hDdig2, hcs2⟩
          simp only [List.cons_append] at hcs2
          have htl := (List.cons.inj hcs2).2
          have := hmin a2 t' ⟨L2, D2, b2, ht2, hLne2, hDne2, hLup2, hDdig2, htl⟩
          simpa [List.length_cons] using Nat.succ_le_succ this
    · rw [htry] at h
      have ht0 : t0 = t := by simpa using h
      subst ht0
      refine ⟨[], tryMatchAt_eq_some_iff.mp htry, ?_⟩
      intro a' t' _
      exact Nat.zero_le _

/-- Completeness: a filename containing the pattern is never reported
as "no match". -/
theorem searchFirst_isSome {t : List Char} :
    ∀ {a cs : List Char}, MatchDecomp cs t a → (searchFirst cs).isSome = true
  | [], cs, hd => by
    have h2 := tryMatchAt_eq_some_iff.mpr hd
    rcases cs with _ | ⟨c, cs2⟩
    · rw [show tryMatchAt ([] : List Char) = none from rfl] at h2
      exact Option.noConfusion h2
    · rw [searchFirst_cons, h2]
      rfl
  | c :: a2, cs, hd => by
    rcases hd with ⟨L, D, b, ht, hLne, hDne, hLup, hDdig, hcs⟩
    rcases cs with _ | ⟨c0, cs2⟩
    · exact absurd hcs (by simp)
    · simp only [List.cons_append] at hcs
      have htl := (List.cons.inj hcs).2
      have ih := @searchFirst_isSome t a2 cs2
        ⟨L, D, b, ht, hLne, hDne, hLup, hDdig, htl⟩
      rw [searchFirst_cons]
      rcases htry : tryMatchAt (c0 :: cs2) with _ | t0
      · exact ih
      · rfl

/-! ### Lemmas about `parse_image_paths_from_file`: stripping the whole
file content before splitting changes no kept line. -/

theorem splitLines_ne_nil : ∀ cs : List Char, splitLines cs ≠ []
  | [] => by simp [splitLines]
  | c :: rest => by
    unfold splitLines
    by_cases h : c = '\n'
    · simp [h]
    · rw [if_neg h]
      rcases hs : splitLines rest with _ | ⟨l, ls⟩
      · simp
      · simp

theorem splitLines_cons_nl (x : List Char) : splitLines ('\n' :: x) = [] :: splitLines x := rfl

theorem splitLines_cons_ne {c : Char} (hc : ¬ c = '\n') (x : List Char) :
    splitLines (c :: x) = (c :: (splitLines x).headD []) :: (splitLines x).tail := by
  rcases hs : splitLines x with _ | ⟨l, ls⟩
  · exact absurd hs (splitLines_ne_nil x)
  · simp [splitLines, if_neg hc, hs]

theorem dropWhile_all {p : Char → Bool} :
    ∀ {s : List Char}, (∀ c ∈ s, p c = true) → s.dropWhile p = []
  | [], _ => rfl
  | c :: s, h => by
    rw [List.dropWhile_cons_of_pos (h c (List.mem_cons_self _ _))]
    exact dropWhile_all fun x hx => h x (List.mem_cons_of_mem _ hx)

theorem dropWhile_append_right {p : Char → Bool} :
    ∀ {l : List Char}, l.dropWhile p = [] → ∀ s, (l ++ s).dropWhile p = s.dropWhile p
  | [], _, _ => rfl
  | c :: l, h, s => by
    by_cases hc : p c = true
    · rw [List.dropWhile_cons_of_pos hc] at h
      rw [List.cons_append, List.dropWhile_cons_of_pos hc]
      exact dropWhile_append_right h s
    · rw [List.dropWhile_cons_of_neg hc] at h
      exact absurd h (by simp)

theorem dropWhile_append_left {p : Char → Bool} :
    ∀ {l : List Char}, l.dropWhile p ≠ [] → ∀ s, (l ++ s).dropWhile p = l.dropWhile p ++ s
  | [], h, _ => absurd rfl h
  | c :: l, h, s => by
    by_cases hc : p c = true
    · rw [List.dropWhile_cons_of_pos hc] at h
      rw [List.cons_append, List.dropWhile_cons_of_pos hc, List.dropWhile_cons_of_pos hc]
      exact dropWhile_append_left h s
    · rw [List.cons_append, List.dropWhile_cons_of_neg hc, List.dropWhile_cons_of_neg hc]
      rfl

theorem cleanLine_nil : cleanLine [] = none := rfl

theorem cleanLine_cons_space {c : Char} (hc : isPySpace c = true) (l : List Char) :
    cleanLine (c :: l) = cleanLine l := by
  unfold cleanLine pyStrip
  rw [List.dropWhile_cons_of_pos hc]

theorem dropTrailing_append_all {p : Char → Bool} {s : List Char}
    (hs : ∀ c ∈ s, p c = true) (x : List Char) :
    dropTrailing p (x ++ s) = dropTrailing p x := by
  unfold dropTrailing
  rw [List.reverse_append, dropWhile_append_all]
  intro c hc
  rw [List.mem_reverse] at hc
  exact hs c hc

theorem cleanLine_append_space {s : List Char}
    (hs : ∀ c ∈ s, isPySpace c = true) (l : List Char) :
    cleanLine (l ++ s) = cleanLine l := by
  unfold cleanLine pyStrip
  rcases hcase : l.dropWhile isPySpace with _ | ⟨c0, l0⟩
  · rw [dropWhile_append_right hcase s, dropWhile_all hs]
  · rw [dropWhile_append_left (by rw [hcase]; simp) s, hcase, dropTrailing_append_all hs]

theorem splitLines_all_space {s : List Char} (hs : ∀ c ∈ s, isPySpace c = true) :
    ∀ l ∈ splitLines s, ∀ c ∈ l, isPySpace c = true := by
  induction s with
  | nil =>
    intro l hl c hc
    have hl2 : l = [] := by
      rw [show splitLines ([] : List Char) = [[]] from rfl] at hl
      simpa using hl
    subst hl2
    exact absurd hc (by simp)
  | cons c0 s ihs =>
    intro l hl c hc
    by_cases hnl : c0 = '\n'
    · rw [show splitLines (c0 :: s) = [] :: splitLines s by
          rw [hnl]; exact splitLines_cons_nl s] at hl
      rcases List.mem_cons.mp hl with h | h
      · subst h; exact absurd hc (by simp)
      · exact ihs (fun x hx => hs x (List.mem_cons_of_mem _ hx)) l h c hc
    · rw [splitLines_cons_ne hnl] at hl
      have hs' : ∀ x ∈ s, isPySpace x = true := fun x hx => hs x (List.mem_cons_of_mem _ hx)
      rcases List.mem_cons.mp hl with h | h
      · subst h
        rcases List.mem_cons.mp hc with h2 | h2
        · subst h2; exact hs c (List.mem_cons_self _ _)
        · have hhead : (splitLines s).headD [] ∈ splitLines s := by
            rcases hsp : splitLines s with _ | ⟨x, xs⟩
            · exact absurd hsp (splitLines_ne_nil s)
            · exact List.mem_cons_self _ _
          exact ihs hs' _ hhead c h2
      · have htail : l ∈ splitLines s := by
          rcases hsp : splitLines s with _ | ⟨x, xs⟩
          · exact absurd hsp (splitLines_ne_nil s)
          · rw [hsp] at h; exact List.mem_cons_of_mem _ h
        exact ihs hs' l htail c hc

/-- Dropping leading Python whitespace from the whole content removes
no kept line. -/
theorem filterMap_splitLines_dropWhile (cs : List Char) :
    (splitLines (cs.dropWhile isPySpace)).filterMap cleanLine =
      (splitLines cs).filterMap cleanLine := by
  induction cs with
  | nil => rfl
  | cons c cs ih =>
    by_cases hc : isPySpace c = true
    · rw [List.dropWhile_cons_of_pos hc]
      by_cases hnl : c = '\n'
      · rw [show splitLines (c :: cs) = [] :: splitLines cs by
          rw [hnl]; exact splitLines_cons_nl cs]
        rw [List.filterMap_cons, cleanLine_nil]
        exact ih
      · rw [splitLines_cons_ne hnl, List.filterMap_cons, cleanLine_cons_space hc]
        rw [ih]
        rcases hsp : splitLines cs with _ | ⟨l, ls⟩
        · exact absurd hsp (splitLines_ne_nil cs)
        · rw [List.filterMap_cons]
          rfl
    · rw [List.dropWhile_cons_of_neg hc]

theorem getLastD_of_ne_nil {α : Type} :
    ∀ {l : List α}, l ≠ [] → ∀ d₁ d₂ : α, l.getLastD d₁ = l.getLastD d₂
  | [], h, _, _ => absurd rfl h
  | [_], _, _, _ => rfl
  | _ :: b :: l, _, d₁, d₂ => by
    simp only [List.getLastD_cons]

theorem dropLast_cons_of_ne_nil {α : Type} {l : List α} (h : l ≠ []) (a : α) :
    (a :: l).dropLast = a :: l.dropLast := by
  rcases l with _ | ⟨b, l⟩
  · exact absurd rfl h
  · rfl

theorem dropLast_append_getLastD {α : Type} :
    ∀ {l : List α}, l ≠ [] → ∀ d : α, l.dropLast ++ [l.getLastD d] = l
  | [], h, _ => absurd rfl h
  | [_], _, _ => rfl
  | a :: b :: l, _, d => by
    rw [List.getLastD_cons]
    rw [dropLast_cons_of_ne_nil (by simp)]
    rw [List.cons_append]
    rw [@dropLast_append_getLastD _ (b :: l) (by simp) a]

/-- Splitting an append on newlines: the last line of the left part fuses
with the first line of the right part. -/
theorem splitLines_append : ∀ a b : List Char,
    splitLines (a ++ b) = (splitLines a).dropLast ++
      ((splitLines a).getLastD [] ++ (splitLines b).headD []) :: (splitLines b).tail
  | [], b => by
    rcases hsp : splitLines b with _ | ⟨x, xs⟩
    · exact absurd hsp (splitLines_ne_nil b)
    · simp [splitLines, hsp]
  | c :: a, b => by
    by_cases hnl : c = '\n'
    · rw [List.cons_append,
        show splitLines (c :: (a ++ b)) = [] :: splitLines (a ++ b) by
          rw [hnl]; exact splitLines_cons_nl _,
        show splitLines (c :: a) = [] :: splitLines a by
          rw [hnl]; exact splitLines_cons_nl _]
      rw [splitLines_append a b]
      rw [dropLast_cons_of_ne_nil (splitLines_ne_nil a)]
      rw [show ([] :: splitLines a).getLastD [] = (splitLines a).getLastD [] from
        List.getLastD_cons _ _ _ |>.trans (getLastD_of_ne_nil (splitLines_ne_nil a) _ _)]
      rfl
    · rw [List.cons_append, splitLines_cons_ne hnl, splitLines_cons_ne hnl]
      rw [splitLines_append a b]
      rcases hsp : splitLines a with _ | ⟨l, ls⟩
      · exact absurd hsp (splitLines_ne_nil a)
      · rcases ls with _ | ⟨l2, ls2⟩
        · simp [List.getLastD_cons]
        · rw [dropLast_cons_of_ne_nil (by simp)]
          simp only [List.headD_cons, List.cons_append, List.tail_cons]
          rw [show (l :: l2 :: ls2).getLastD [] = (l2 :: ls2).getLastD [] from
            List.getLastD_cons _ _ _ |>.trans (getLastD_of_ne_nil (by simp) _ _)]
          rw [show ((c :: l) :: l2 :: ls2).getLastD [] = (l2 :: ls2).getLastD [] from
            List.getLastD_cons _ _ _ |>.trans (getLastD_of_ne_nil (by simp) _ _)]
          rfl

/-- Appending trailing Python whitespace to the whole content removes
no kept line. -/
theorem filterMap_splitLines_append_space {s : List Char}
    (hs : ∀ c ∈ s, isPySpace c = true) (cs : List Char) :
    (splitLines (cs ++ s)).filterMap cleanLine =
      (splitLines cs).filterMap cleanLine := by
  rw [splitLines_append, List.filterMap_append, List.filterMap_cons]
  have hlines := splitLines_all_space hs
  have hhead : ∀ c ∈ (splitLines s).headD [], isPySpace c = true := by
    rcases hsp : splitLines s with _ | ⟨x, xs⟩
    · exact absurd hsp (splitLines_ne_nil s)
    · exact hlines x (by rw [hsp]; exact List.mem_cons_self _ _)
  have htail : (splitLines s).tail.filterMap cleanLine = [] := by
    rw [List.filterMap_eq_nil_iff]
    intro l hl
    have hmem : l ∈ splitLines s := by
      rcases hsp : splitLines s with _ | ⟨x, xs⟩
      · exact absurd hsp (splitLines_ne_nil s)
      · rw [hsp] at hl; exact List.mem_cons_of_mem _ hl
    have hall := hlines l hmem
    unfold cleanLine
    have hstrip : pyStrip l = [] := by
      unfold pyStrip dropTrailing
      rw [dropWhile_all hall]
      rfl
    rw [hstrip]
    rfl
  rw [cleanLine_append_space hhead, htail]
  conv_rhs =>
    rw [show splitLines cs =
      (splitLines cs).dropLast ++ [(splitLines cs).getLastD []] from
      (dropLast_append_getLastD (splitLines_ne_nil cs) []).symm]
  rw [List.filterMap_append, List.filterMap_cons]
  rfl

/-- The content-level `strip()` before splitting is invisible to the
kept lines. -/
theorem filterMap_splitLines_pyStrip (cs : List Char) :
    (splitLines (pyStrip cs)).filterMap cleanLine =
      (splitLines cs).filterMap cleanLine := by
  unfold pyStrip
  set x := cs.dropWhile isPySpace with hx
  have hdecomp : x = dropTrailing isPySpace x ++ (x.reverse.takeWhile isPySpace).reverse := by
    unfold dropTrailing
    rw [← List.reverse_append, List.takeWhile_append_dropWhile, List.reverse_reverse]
  have hs : ∀ c ∈ (x.reverse.takeWhile isPySpace).reverse, isPySpace c = true := by
    intro c hc
    rw [List.mem_reverse] at hc
    exact List.mem_takeWhile_imp hc
  calc (splitLines (dropTrailing isPySpace x)).filterMap cleanLine
      = (splitLines (dropTrailing isPySpace x ++
          (x.reverse.takeWhile isPySpace).reverse)).filterMap cleanLine :=
        (filterMap_splitLines_append_space hs _).symm
    _ = (splitLines x).filterMap cleanLine := by rw [← hdecomp]
    _ = (splitLines cs).filterMap cleanLine := filterMap_splitLines_dropWhile cs

/-! ### Lemmas about the Metadata Resolver -/

theorem load_subject_metadata_some (t : MetaTable) :
    load_subject_metadata (some t) =
      if t.hasAgeMonths then
        (buildMapping (fun r => r.age_months.map (· / 12)) t.rows, false)
      else if t.hasAge then (buildMapping (fun r => r.age) t.rows, false)
      else ([], true) := rfl

theorem buildMapping_eq_filterMap (g : MetaRow → Option ℚ) :
    ∀ rs : List MetaRow,
      buildMapping g rs = rs.filterMap fun r => (g r).map fun a => (r.id, a)
  | [] => rfl
  | r :: rs => by
    unfold buildMapping
    rw [List.filterMap_cons]
    rcases hg : g r with _ | a
    · simp only [hg, Option.map_none']
      exact buildMapping_eq_filterMap g rs
    · simp only [hg, Option.map_some']
      rw [buildMapping_eq_filterMap g rs]

/-! ### Lemmas about the Image Catalog Builder -/

/-- The record an input contributes to `image_data`, if any. -/
def presentRecord (env : Env) (ageMap : List (String × ℚ)) (raw : String) :
    Option SlideRecord :=
  match processOne env ageMap raw with
  | some (r, true) => some r
  | _ => none

/-- The record an input contributes to `missing_images`, if any. -/
def missingRecord (env : Env) (ageMap : List (String × ℚ)) (raw : String) :
    Option SlideRecord :=
  match processOne env ageMap raw with
  | some (r, false) => some r
  | _ => none

theorem buildLists_eq_filterMap (env : Env) (ageMap : List (String × ℚ)) :
    ∀ inputs : List String,
      buildLists env ageMap inputs =
        (inputs.filterMap (presentRecord env ageMap),
         inputs.filterMap (missingRecord env ageMap))
  | [] => rfl
  | raw :: rest => by
    unfold buildLists
    rw [List.filterMap_cons, List.filterMap_cons]
    rw [buildLists_eq_filterMap env ageMap rest]
    rcases hp : processOne env ageMap raw with _ | ⟨r, _ | _⟩ <;>
      simp [presentRecord, missingRecord, hp]

theorem lookupLast_nil (k : String) : lookupLast [] k = none := rfl

theorem processOne_eq (env : Env) (ageMap : List (String × ℚ)) (raw : String) :
    processOne env ageMap raw = (resolvePath env raw).bind fun p =>
      (extract_subject_id_from_filename (basename env.sep p)).map fun sid =>
        ({ path := p, subject_id := sid, age := lookupLast ageMap sid,
           filename := basename env.sep p }, env.fsExists p) := by
  unfold processOne
  split
  next heq =>
    rw [heq]
    rfl
  next p heq =>
    rw [heq, Option.some_bind]
    split
    next heq2 =>
      rw [heq2]
      rfl
    next sid heq2 =>
      rw [heq2]
      rfl

theorem processOne_some {env : Env} {ageMap : List (String × ℚ)} {raw : String}
    {r : SlideRecord} {pr : Bool} (h : processOne env ageMap raw = some (r, pr)) :
    ∃ p sid, resolvePath env raw = some p ∧
      extract_subject_id_from_filename (basename env.sep p) = some sid ∧
      r = { path := p, subject_id := sid, age := lookupLast ageMap sid,
            filename := basename env.sep p } ∧
      pr = env.fsExists p := by
  rw [processOne_eq] at h
  rcases Option.bind_eq_some.mp h with ⟨p, hres, hmap⟩
  rcases Option.map_eq_some'.mp hmap with ⟨sid, hext, heq⟩
  exact ⟨p, sid, hres, hext, congrArg Prod.fst heq.symm, congrArg Prod.snd heq.symm⟩

/-- With an empty age mapping every built record is age-less. -/
theorem buildLists_age_none (env : Env) (inputs : List String) :
    ∀ r ∈ (buildLists env [] inputs).1, r.age = none := by
  intro r hr
  rw [buildLists_eq_filterMap] at hr
  rcases List.mem_filterMap.mp hr with ⟨raw, _, hp⟩
  unfold presentRecord at hp
  rcases hone : processOne env [] raw with _ | ⟨r0, _ | _⟩ <;> rw [hone] at hp
  · exact Option.noConfusion hp
  · exact Option.noConfusion hp
  · rcases processOne_some hone with ⟨p, sid, _, _, hr0, _⟩
    have : r0 = r := Option.some_inj.mp hp
    rw [← this, hr0]
    rfl

/-! ### Lemmas about the sort -/

theorem keyLE_iff_tuple (a b : SlideRecord) : keyLE a b ↔
    (a.age.isNone < b.age.isNone ∨ (a.age.isNone = b.age.isNone ∧
      (keyAge a < keyAge b ∨ (keyAge a = keyAge b ∧ a.subject_id ≤ b.subject_id)))) := by
  unfold keyLE recKey
  rw [Prod.Lex.le_iff]
  constructor
  · rintro (h | ⟨he, h2⟩)
    · exact Or.inl h
    · exact Or.inr ⟨he, (Prod.Lex.le_iff _ _).mp h2⟩
  · rintro (h | ⟨he, h2⟩)
    · exact Or.inl h
    · exact Or.inr ⟨he, (Prod.Lex.le_iff _ _).mpr h2⟩

theorem keyLE_iff_specLE (a b : SlideRecord) : keyLE a b ↔ specLE a b := by
  rw [keyLE_iff_tuple]
  unfold specLE keyAge
  rcases ha : a.age with _ | x <;> rcases hb : b.age with _ | y <;>
    simp [ha, hb, lt_self_iff_false, Bool.lt_iff]

theorem specLE_total (a b : SlideRecord) : specLE a b ∨ specLE b a := by
  rw [← keyLE_iff_specLE, ← keyLE_iff_specLE]
  exact IsTotal.total a b

theorem sortRecs_sorted (l : List SlideRecord) : List.Pairwise specLE (sortRecs l) :=
  List.Pairwise.imp (fun h => (keyLE_iff_specLE _ _).mp h)
    (List.sorted_insertionSort keyLE l)

theorem sortRecs_idem (l : List SlideRecord) : sortRecs (sortRecs l) = sortRecs l :=
  List.Sorted.insertionSort_eq (List.sorted_insertionSort keyLE l)

theorem sortRecs_perm (l : List SlideRecord) : List.Perm (sortRecs l) l :=
  List.perm_insertionSort keyLE l

/-! ### Lemmas about the Path Resolver wiring -/

theorem resolvePath_c_drive {env : Env} {raw : String}
    (h1 : "C:".toList.isPrefixOf (normalizeSeps env.sep raw).toList = true)
    (h2 : env.osName ≠ "nt") :
    resolvePath env raw =
      (candidatePaths (basename env.sep (normalizeSeps env.sep raw))).find? env.fsExists := by
  unfold resolvePath
  rw [if_pos ⟨h1, h2⟩]

theorem find?_candidates_head {env : Env} {fn : String}
    (h : env.fsExists fn = true) :
    (candidatePaths fn).find? env.fsExists = some fn := by
  unfold candidatePaths
  rw [List.find?_cons_of_pos _ h]

theorem buildLists_skip {env : Env} {ageMap : List (String × ℚ)} {raw : String}
    (h : resolvePath env raw = none) :
    buildLists env ageMap [raw] = ([], []) := by
  have hp : processOne env ageMap raw = none := by
    unfold processOne
    rw [h]
  unfold buildLists
  rw [hp]
  rfl

/-! ### Lemmas about the Document Assembler -/

theorem createPresentation_eq_none_iff (env : Env) (mdPath : Option String)
    (inputs : List String) (collab : String → Option ℚ) (fmt : ℚ → String)
    (title : String) :
    createPresentation env mdPath inputs collab fmt title = none ↔
      (buildLists env (ageMapOf env mdPath) inputs).1 = [] := by
  unfold createPresentation
  by_cases hb : (buildLists env (ageMapOf env mdPath) inputs).1 = []
  · rw [if_pos hb]
    simp [hb]
  · rw [if_neg hb]
    simp [hb]

theorem createPresentation_imageSlides {env : Env} {mdPath : Option String}
    {inputs : List String} {collab : String → Option ℚ} {fmt : ℚ → String}
    {title : String} {d : Document}
    (h : createPresentation env mdPath inputs collab fmt title = some d) :
    d.imageSlides = (presentOf env mdPath inputs).enum.map fun p =>
      { header := mkHeader fmt p.2 (p.1 + 1) (presentOf env mdPath inputs).length
        content := placeImage collab p.2.path p.2.filename } := by
  unfold createPresentation at h
  by_cases hb : (buildLists env (ageMapOf env mdPath) inputs).1 = []
  · rw [if_pos hb] at h
    exact Option.noConfusion h
  · rw [if_neg hb] at h
    have h2 := Option.some_inj.mp h
    rw [← h2]
    rfl

/-- The header the code emits for an age-less record. -/
def noAgeHeader (r : SlideRecord) (i n : ℕ) : String :=
  "Subject " ++ r.subject_id ++ " - Slide " ++ toString i ++ " of " ++ toString n

theorem mkHeader_none {r : SlideRecord} (fmt : ℚ → String) (i n : ℕ)
    (h : r.age = none) : mkHeader fmt r i n = noAgeHeader r i n := by
  unfold mkHeader noAgeHeader ageNote
  rw [h, String.append_empty]

theorem map_enum_snd {β : Type} (l : List SlideRecord) (g : SlideRecord → β) :
    (l.enum.map fun p => g p.2) = l.map g := by
  rw [show (fun p : ℕ × SlideRecord => g p.2) = g ∘ Prod.snd from rfl, ← List.map_map]
  rw [show l.enum.map Prod.snd = l from List.enumFrom_map_snd 0 l]

theorem snd_mem_of_mem_enumFrom {α : Type} :
    ∀ {n : ℕ} {l : List α} {p : ℕ × α}, p ∈ l.enumFrom n → p.2 ∈ l
  | _, [], _, h => absurd h (by simp)
  | n, a :: l, p, h => by
    rw [show (a :: l).enumFrom n = (n, a) :: l.enumFrom (n + 1) from rfl] at h
    rcases List.mem_cons.mp h with h | h
    · subst h
      exact List.mem_cons_self _ _
    · exact List.mem_cons_of_mem _ (snd_mem_of_mem_enumFrom h)

/-! ### Concrete runs used by witnesses and counterexamples -/

def envW : Env :=
  { fsExists := fun p =>
      p == "stride_change_AB1_fixed_grid.png" || p == "stride_change_CD2_fixed_grid.png",
    osName := "posix", sep := '/', metadata := none }

def inputsW : List String :=
  ["stride_change_AB1_fixed_grid.png", "stride_change_CD2_fixed_grid.png"]

def collabW : String → Option ℚ :=
  fun p => if p == "stride_change_AB1_fixed_grid.png" then some 1 else none

def fmtW : ℚ → String := fun _ => ""

def dummyDoc : Document := { mainTitle := "", subtitle := "", imageSlides := [] }

def envDup : Env :=
  { fsExists := fun p => p == "stride_change_AB1_fixed_grid.png",
    osName := "posix", sep := '/', metadata := none }

def dupPath : String := "stride_change_AB1_fixed_grid.png"

def envNoFs : Env :=
  { fsExists := fun _ => false, osName := "posix", sep := '/', metadata := none }

def envX : Env :=
  { fsExists := fun p => p == "x.png", osName := "posix", sep := '/', metadata := none }

def tblC3 : MetaTable :=
  { hasAgeMonths := true, hasAge := true,
    rows := [{ id := "1", age_months := some 24, age := some 5 }] }

def tblC7 : MetaTable :=
  { hasAgeMonths := true, hasAge := true,
    rows := [{ id := "1", age_months := some 144, age := none },
             { id := "2", age_months := none, age := some 15.5 }] }

/-! ### The claims -/

/-- C1: the present catalog is sorted in a total order — records with an
age precede records without one; within the aged group ascending age
with ties broken by subject id; within the ageless group ordered by
subject id (`specLE` states exactly this order and is total) — and
applying the sort a second time to the already-sorted catalog yields an
identical sequence (idempotence). -/
theorem muh_c1_catalog_sort_total_order (env : Env) (mdPath : Option String)
    (inputs : List String) :
    (∀ a b : SlideRecord, specLE a b ∨ specLE b a) ∧
    List.Pairwise specLE (presentOf env mdPath inputs) ∧
    sortRecs (presentOf env mdPath inputs) = presentOf env mdPath inputs :=
  ⟨specLE_total, sortRecs_sorted _, sortRecs_idem _⟩

/-- C2 counterexample: for the Windows-style path `C:\data\x.png` on a
non-`nt` platform with no candidate location on disk, the record does
NOT land in the missing list — the loop `continue`s, so the path
appears in neither `image_data` nor `missing_images`, refuting "the
record is recorded in the missing list". -/
theorem muh_c2_counterexample :
    resolvePath envNoFs "C:\\data\\x.png" = none ∧
    buildLists envNoFs [] ["C:\\data\\x.png"] = ([], []) ∧
    ¬((buildLists envNoFs [] ["C:\\data\\x.png"]).2 ≠ []) :=
  ⟨rfl, rfl, fun h => h rfl⟩

/-- C2 amended: for a path with a foreign-platform drive prefix on a
non-matching platform, resolution searches the fixed candidate list and
the first existing candidate wins; if the base filename exists in the
current directory the path resolves to that relative file; if no
candidate exists, resolution fails and the record is skipped with a
printed diagnostic, appearing in neither the present nor the missing
list, without raising. -/
theorem muh_c2_amended (env : Env) (raw : String)
    (h1 : "C:".toList.isPrefixOf (normalizeSeps env.sep raw).toList = true)
    (h2 : env.osName ≠ "nt") :
    (resolvePath env raw =
      (candidatePaths (basename env.sep (normalizeSeps env.sep raw))).find? env.fsExists) ∧
    (env.fsExists (basename env.sep (normalizeSeps env.sep raw)) = true →
      resolvePath env raw = some (basename env.sep (normalizeSeps env.sep raw))) ∧
    (resolvePath env raw = none →
      ∀ ageMap, buildLists env ageMap [raw] = ([], [])) := by
  refine ⟨resolvePath_c_drive h1 h2, ?_, ?_⟩
  · intro h3
    rw [resolvePath_c_drive h1 h2]
    exact find?_candidates_head h3
  · intro h ageMap
    exact buildLists_skip h

theorem muh_c2_amended_witness :
    resolvePath envX "C:\\data\\x.png" =
      some (basename envX.sep (normalizeSeps envX.sep "C:\\data\\x.png")) :=
  (muh_c2_amended envX "C:\\data\\x.png" rfl (by decide)).2.1 rfl

/-- C3 counterexample: on a table carrying BOTH a months column and a
years column, the code uses the months column (24 months → 2 years),
not the years column (5 years), refuting "prefers the years column". -/
theorem muh_c3_counterexample :
    tblC3.hasAge = true ∧
    (load_subject_metadata (some tblC3)).1 = [("1", 2)] ∧
    (load_subject_metadata (some tblC3)).1 ≠ [("1", 5)] := by
  refine ⟨rfl, ?_, ?_⟩
  · norm_num [load_subject_metadata_some, tblC3, buildMapping]
  · norm_num [load_subject_metadata_some, tblC3, buildMapping]

/-- C3 amended: the Metadata Resolver prefers the months-denominated
column (dividing by 12); only when the months column is absent does it
use the years column; when neither is present it returns an empty
mapping and signals a non-fatal warning. -/
theorem muh_c3_amended (t : MetaTable) :
    (t.hasAgeMonths = true →
      load_subject_metadata (some t) =
        (t.rows.filterMap fun r => (r.age_months.map (· / 12)).map fun a => (r.id, a),
         false)) ∧
    (t.hasAgeMonths = false → t.hasAge = true →
      load_subject_metadata (some t) =
        (t.rows.filterMap fun r => r.age.map fun a => (r.id, a), false)) ∧
    (t.hasAgeMonths = false → t.hasAge = false →
      load_subject_metadata (some t) = ([], true)) := by
  refine ⟨?_, ?_, ?_⟩
  · intro h1
    rw [load_subject_metadata_some, if_pos h1, buildMapping_eq_filterMap]
  · intro h1 h2
    rw [load_subject_metadata_some, if_neg (by rw [h1]; exact Bool.false_ne_true),
      if_pos h2, buildMapping_eq_filterMap]
  · intro h1 h2
    rw [load_subject_metadata_some, if_neg (by rw [h1]; exact Bool.false_ne_true),
      if_neg (by rw [h2]; exact Bool.false_ne_true)]

theorem muh_c3_amended_witness :
    load_subject_metadata (some tblC3) =
      (tblC3.rows.filterMap fun r => (r.age_months.map (· / 12)).map fun a => (r.id, a),
       false) :=
  (muh_c3_amended tblC3).1 rfl

/-- C4: whenever the extractor returns a token, the filename decomposes
around exactly that embedded token at the leftmost matching position
(no normalisation — the token is the literal uppercase-run ++
digit-run of the filename); whenever any such decomposition exists the
extractor does not return "no match"; and the two examples of the
specification hold. -/
theorem muh_c4_extractor (s : String) :
    (∀ t : String, extract_subject_id_from_filename s = some t →
      ∃ a, MatchDecomp s.toList t.toList a ∧
        ∀ a' t', MatchDecomp s.toList t' a' → a.length ≤ a'.length) ∧
    ((∃ t a, MatchDecomp s.toList t a) → extract_subject_id_from_filename s ≠ none) ∧
    extract_subject_id_from_filename "stride_change_MUH1396_fixed_grid.png" =
      some "MUH1396" ∧
    extract_subject_id_from_filename "random.png" = none := by
  refine ⟨?_, ?_, rfl, rfl⟩
  · intro t ht
    unfold extract_subject_id_from_filename at ht
    rcases hsf : searchFirst s.toList with _ | t0
    · rw [hsf] at ht
      exact Option.noConfusion ht
    · rw [hsf] at ht
      have ht0 : String.mk t0 = t := by simpa using ht
      rcases searchFirst_eq_some hsf with ⟨a, hd, hmin⟩
      refine ⟨a, ?_, hmin⟩
      rw [← ht0]
      exact hd
  · rintro ⟨t, a, hd⟩
    unfold extract_subject_id_from_filename
    intro hnone
    have hsome := searchFirst_isSome hd
    rcases hsf : searchFirst s.toList with _ | t0
    · rw [hsf] at hsome
      exact Bool.false_ne_true hsome
    · rw [hsf] at hnone
      exact Option.noConfusion hnone

theorem muh_c4_extractor_witness :
    ∃ a, MatchDecomp "stride_change_MUH1396_fixed_grid.png".toList "MUH1396".toList a ∧
      ∀ a' t', MatchDecomp "stride_change_MUH1396_fixed_grid.png".toList t' a' →
        a.length ≤ a'.length :=
  (muh_c4_extractor "stride_change_MUH1396_fixed_grid.png").1 "MUH1396" rfl

/-- C5: images are placed height-locked — the picture's height is the
available height (canvas height minus the title band minus the bottom
margin), its width the aspect ratio times that height; when that width
is narrower than the available width the left offset is the side
margin plus half the difference (so the gaps left and right of the
picture inside the margin band are equal), otherwise the left offset
stays at the default side margin; with available height 6.0 and
available width 10.0, aspect 1.2 gives width 7.2 and centred left
offset (10 − 7.2)/2 + 0.5, while aspect 2.0 gives width 12 and the
default margin. -/
theorem muh_c5_layout :
    (availableHeight = slideHeight - 1.2 - 0.3 ∧ availableWidth = slideWidth - 1.0) ∧
    (∀ (collab : String → Option ℚ) (path fn : String) (aspect : ℚ),
      collab path = some aspect →
      placeImage collab path fn =
        SlideContent.pic (leftOffset availableWidth (scaledWidth aspect availableHeight))
          1.2 (scaledWidth aspect availableHeight) availableHeight) ∧
    (∀ aspect availH : ℚ, scaledWidth aspect availH = aspect * availH) ∧
    (∀ availW w : ℚ, w < availW →
      leftOffset availW w = 0.5 + (availW - w) / 2 ∧
      leftOffset availW w - 0.5 = (0.5 + availW) - (leftOffset availW w + w)) ∧
    (∀ availW w : ℚ, ¬w < availW → leftOffset availW w = 0.5) ∧
    (scaledWidth 1.2 6 = 7.2 ∧ leftOffset 10 (scaledWidth 1.2 6) = (10 - 7.2) / 2 + 0.5) ∧
    (scaledWidth 2 6 = 12 ∧ leftOffset 10 (scaledWidth 2 6) = 0.5) := by
  refine ⟨⟨rfl, rfl⟩, ?_, fun _ _ => rfl, ?_, ?_, ⟨?_, ?_⟩, ⟨?_, ?_⟩⟩
  · intro collab path fn aspect hc
    unfold placeImage
    rw [hc]
  · intro availW w h
    constructor
    · unfold leftOffset
      rw [if_pos h]
    · unfold leftOffset
      rw [if_pos h]
      ring
  · intro availW w h
    unfold leftOffset
    rw [if_neg h]
  · unfold scaledWidth
    norm_num
  · unfold leftOffset scaledWidth
    rw [if_pos (by norm_num)]
    norm_num
  · unfold scaledWidth
    norm_num
  · unfold leftOffset scaledWidth
    rw [if_neg (by norm_num)]

theorem muh_c5_layout_witness :
    leftOffset 10 7 = 0.5 + (10 - 7) / 2 ∧
    leftOffset 10 7 - 0.5 = (0.5 + 10) - (leftOffset 10 7 + 7) :=
  muh_c5_layout.2.2.2.1 10 7 (by decide)

/-- C6 counterexample: the same resolved path supplied twice in the
input yields TWO records for it in the present catalog — there is no
deduplication — refuting "at most one SlideRecord per distinct
resolved path". -/
theorem muh_c6_counterexample :
    (presentOf envDup none [dupPath, dupPath]).countP (fun r => r.path == dupPath) = 2 ∧
    ¬((presentOf envDup none [dupPath, dupPath]).countP (fun r => r.path == dupPath) ≤ 1) := by
  exact ⟨by decide, by decide⟩

/-- C6 amended: the present catalog holds exactly one SlideRecord per
input occurrence that resolves to an existing file with an extractable
subject id — duplicate input paths therefore produce duplicate
records (the multiset of the sorted catalog equals the multiset of
per-input contributions). -/
theorem muh_c6_amended (env : Env) (mdPath : Option String) (inputs : List String)
    (r : SlideRecord) :
    (presentOf env mdPath inputs).count r =
      (inputs.filterMap (presentRecord env (ageMapOf env mdPath))).count r := by
  unfold presentOf
  rw [(sortRecs_perm _).count_eq]
  rw [buildLists_eq_filterMap]

/-- C7 counterexample: on the rows `[{ID:1, age_months:144}, {ID:2,
age:15.5}]` (a table with both columns, the second row's months cell
NaN) the resolver returns `{"1": 12}` — subject "2" is excluded
because the months column is the one used — refuting the claimed
mapping `{"1":12.0, "2":15.5}`. -/
theorem muh_c7_counterexample :
    (load_subject_metadata (some tblC7)).1 = [("1", 12)] ∧
    ("2", (15.5 : ℚ)) ∉ (load_subject_metadata (some tblC7)).1 ∧
    (load_subject_metadata (some tblC7)).1 ≠ [("1", 12), ("2", 15.5)] := by
  have h : (load_subject_metadata (some tblC7)).1 = [("1", 12)] := by
    norm_num [load_subject_metadata_some, tblC7, buildMapping]
  refine ⟨h, ?_, ?_⟩
  · rw [h]
    norm_num
  · rw [h]
    intro h2
    have h3 := congrArg List.length h2
    simp at h3

/-- C7 amended: on the example rows the resolver returns `{"1": 12}`
(row 2 is excluded since the months column is used and its months cell
is NaN); in general every mapping entry originates from a row whose
selected age cell is not NaN — so NaN rows are excluded rather than
zeroed, distinguishing absence from age 0 — and its key is that row's
stringified ID. -/
theorem muh_c7_amended :
    (load_subject_metadata (some tblC7)).1 = [("1", 12)] ∧
    (∀ t : MetaTable, ∀ p ∈ (load_subject_metadata (some t)).1,
      ∃ r, r ∈ t.rows ∧ r.id = p.1 ∧
        ((t.hasAgeMonths = true ∧ r.age_months = some (p.2 * 12)) ∨
         (t.hasAgeMonths = false ∧ t.hasAge = true ∧ r.age = some p.2))) := by
  constructor
  · norm_num [load_subject_metadata_some, tblC7, buildMapping]
  · intro t p hp
    rw [load_subject_metadata_some] at hp
    by_cases h1 : t.hasAgeMonths = true
    · rw [if_pos h1] at hp
      have hp2 : p ∈ buildMapping (fun r => r.age_months.map (· / 12)) t.rows := hp
      rw [buildMapping_eq_filterMap] at hp2
      rcases List.mem_filterMap.mp hp2 with ⟨r, hr, hmap⟩
      rcases Option.map_eq_some'.mp hmap with ⟨a, hmm, heq⟩
      rcases Option.map_eq_some'.mp hmm with ⟨m, hm, hma⟩
      refine ⟨r, hr, ?_, Or.inl ⟨h1, ?_⟩⟩
      · rw [← heq]
      · rw [hm, ← heq]
        have : m / 12 = a := hma
        rw [show ((r.id, a) : String × ℚ).2 = a from rfl, ← this,
          div_mul_cancel₀ m (by norm_num : (12 : ℚ) ≠ 0)]
    · rw [if_neg h1] at hp
      by_cases h2 : t.hasAge = true
      · rw [if_pos h2] at hp
        have hp2 : p ∈ buildMapping (fun r => r.age) t.rows := hp
        rw [buildMapping_eq_filterMap] at hp2
        rcases List.mem_filterMap.mp hp2 with ⟨r, hr, hmap⟩
        rcases Option.map_eq_some'.mp hmap with ⟨a, ha, heq⟩
        refine ⟨r, hr, ?_, Or.inr ⟨Bool.not_eq_true _ ▸ h1, h2, ?_⟩⟩
        · rw [← heq]
        · rw [ha, ← heq]
      · rw [if_neg h2] at hp
        exact absurd hp (by simp)

theorem muh_c7_amended_witness :
    ∃ r, r ∈ tblC7.rows ∧ r.id = (("1", (12 : ℚ))).1 ∧
      ((tblC7.hasAgeMonths = true ∧ r.age_months = some ((("1", (12 : ℚ))).2 * 12)) ∨
       (tblC7.hasAgeMonths = false ∧ tblC7.hasAge = true ∧
        r.age = some (("1", (12 : ℚ))).2)) :=
  muh_c7_amended.2 tblC7 ("1", 12)
    (by rw [muh_c7_amended.1]; exact List.mem_cons_self _ _)

/-- C8: a collaborator failure on one image never aborts the run —
every sorted catalog entry still yields exactly one slide (the slide
count equals the catalog length and the slide contents are the
per-record placement results), and a failing record's slide carries
the substituted placeholder text instead of a picture. -/
theorem muh_c8_render_failure_isolated (env : Env) (mdPath : Option String)
    (inputs : List String) (collab : String → Option ℚ) (fmt : ℚ → String)
    (title : String) (d : Document)
    (h : createPresentation env mdPath inputs collab fmt title = some d) :
    d.imageSlides.length = (presentOf env mdPath inputs).length ∧
    d.imageSlides.map (·.content) =
      (presentOf env mdPath inputs).map (fun r => placeImage collab r.path r.filename) ∧
    (∀ r : SlideRecord, collab r.path = none →
      placeImage collab r.path r.filename =
        SlideContent.errorText ("Error loading image:\n" ++ r.filename)) := by
  have hs := createPresentation_imageSlides h
  refine ⟨?_, ?_, ?_⟩
  · rw [hs, List.length_map]
    exact List.enumFrom_length
  · rw [hs, List.map_map]
    exact map_enum_snd (presentOf env mdPath inputs)
      (fun r => placeImage collab r.path r.filename)
  · intro r hc
    unfold placeImage
    rw [hc]

theorem muh_c8_render_failure_isolated_witness :
    ((createPresentation envW none inputsW collabW fmtW "T").getD dummyDoc).imageSlides.length =
      (presentOf envW none inputsW).length :=
  (muh_c8_render_failure_isolated envW none inputsW collabW fmtW "T"
    ((createPresentation envW none inputsW collabW fmtW "T").getD dummyDoc) rfl).1

/-- C9: when the metadata file is missing or unreadable the resolver
yields an empty mapping with its warning flag set, the run's age
mapping is empty, every catalog record is age-less, the catalog is
ordered by subject id alone, and every emitted slide header is the
age-free header (no age annotation) — the pipeline is a total function
of its inputs, so no exception escapes. -/
theorem muh_c9_missing_metadata (env : Env) (mdPath : Option String)
    (inputs : List String) (collab : String → Option ℚ) (fmt : ℚ → String)
    (title : String)
    (hmd : ∀ mp, mdPath = some mp → env.fsExists mp = false ∨ env.metadata = none) :
    load_subject_metadata none = ([], true) ∧
    ageMapOf env mdPath = [] ∧
    (∀ r ∈ presentOf env mdPath inputs, r.age = none) ∧
    List.Pairwise (fun a b : SlideRecord => a.subject_id ≤ b.subject_id)
      (presentOf env mdPath inputs) ∧
    (∀ d : Document, createPresentation env mdPath inputs collab fmt title = some d →
      d.imageSlides.map (·.header) =
        (presentOf env mdPath inputs).enum.map
          (fun p => noAgeHeader p.2 (p.1 + 1) (presentOf env mdPath inputs).length)) := by
  have hmap : ageMapOf env mdPath = [] := by
    rcases mdPath with _ | mp
    · rfl
    · rcases hmd mp rfl with h | h
      · rw [ageMapOf_some, if_neg (by rw [h]; exact Bool.false_ne_true)]
      · by_cases hf : env.fsExists mp = true
        · rw [ageMapOf_some, if_pos hf, h]
          rfl
        · rw [ageMapOf_some, if_neg hf]
  have hage : ∀ r ∈ presentOf env mdPath inputs, r.age = none := by
    intro r hr
    unfold presentOf at hr
    rw [hmap] at hr
    have hr2 : r ∈ (buildLists env [] inputs).1 := (List.mem_insertionSort keyLE).mp hr
    exact buildLists_age_none env inputs r hr2
  refine ⟨rfl, hmap, hage, ?_, ?_⟩
  · have hp : List.Pairwise specLE (presentOf env mdPath inputs) :=
      sortRecs_sorted (buildLists env (ageMapOf env mdPath) inputs).1
    refine List.Pairwise.imp_of_mem ?_ hp
    intro a b ha hb hab
    have ha2 : a.age = none := hage a ha
    have hb2 : b.age = none := hage b hb
    unfold specLE at hab
    rw [ha2, hb2] at hab
    exact hab
  · intro d hd
    rw [createPresentation_imageSlides hd, List.map_map]
    refine List.map_congr_left ?_
    intro p hp
    show mkHeader fmt p.2 (p.1 + 1) (presentOf env mdPath inputs).length =
      noAgeHeader p.2 (p.1 + 1) (presentOf env mdPath inputs).length
    exact mkHeader_none fmt _ _ (hage p.2 (snd_mem_of_mem_enumFrom hp))

theorem muh_c9_missing_metadata_witness :
    ageMapOf envW (some "muh_metadata.csv") = [] :=
  (muh_c9_missing_metadata envW (some "muh_metadata.csv") inputsW collabW fmtW "T"
    (fun mp hmp => Or.inl (by rw [← Option.some_inj.mp hmp]; rfl))).2.1

/-- C10: `parse_image_paths_from_file` returns, in input order, exactly
those lines of the file whose cleaned form (surrounding whitespace
stripped, then surrounding double quotes stripped) is non-empty and
ends with `.png` — the whole-content `strip()` the code performs first
changes nothing — and a missing or unreadable file yields `[]`. -/
theorem muh_c10_parse_paths :
    parse_image_paths_from_file none = [] ∧
    ∀ content : String,
      parse_image_paths_from_file (some content) = parseLinesSpec content := by
  refine ⟨rfl, ?_⟩
  intro content
  rw [show parse_image_paths_from_file (some content) =
      ((splitLines (pyStrip content.toList)).filterMap cleanLine).map
        (fun l => String.mk l) from rfl]
  unfold parseLinesSpec
  rw [filterMap_splitLines_pyStrip]

end MUH
